import Mathlib

/-!
Verification of the escape-time fractal field generator and the
generative-AI wrapper pages of the Streamlit_Blank_App repository.

The numeric core is `pages/demos/animation.py`: a per-frame escape-time
computation on a rectangular lattice of complex sample points, performed
with masked vectorized updates, followed by a display normalization.
Real numbers are embedded as exact rationals (the Python code uses
float64; every claim here is about the exact arithmetic the algorithm
denotes, not about rounding).
-/

set_option autoImplicit false

namespace BlankApp

/-- A complex number with rational components.  Stands for the complex
values that `numpy` manipulates in `animation.py`. -/
@[ext]
structure Cx where
  re : ℚ
  im : ℚ
  deriving DecidableEq, Repr

instance : Add Cx where
  add u v := ⟨u.re + v.re, u.im + v.im⟩

instance : Mul Cx where
  mul u v := ⟨u.re * v.re - u.im * v.im, u.re * v.im + u.im * v.re⟩

/-- Squared magnitude.  The code's test `np.abs(z) > 2` is embedded as
`4 < normSq z`, which is equivalent over the reals (§4.1 of the spec
itself licenses the `|z|² > 4` form). -/
def Cx.normSq (z : Cx) : ℚ :=
  z.re * z.re + z.im * z.im

/-- Complex conjugation (used only to state and prove the symmetry
property). -/
def Cx.conj (z : Cx) : Cx :=
  ⟨z.re, -z.im⟩

/-- The numpy call `np.linspace(a, b, num)` with the default inclusive endpoint:
`num` evenly spaced values from `a` to `b`.  For `num = 1` numpy
returns `[a]`, which the formula also yields (the `k = 0` term). -/
def linspace (a b : ℚ) (num : ℕ) : List ℚ :=
  (List.range num).map fun k : ℕ => a + (k : ℚ) * ((b - a) / ((num : ℚ) - 1))

/-- The three per-point slots of the vectorized loop state:
the current iterate `z`, the still-iterating mask bit `m`, and the
recorded iteration count `n`. -/
structure PtState where
  z : Cx
  m : Bool
  n : ℕ
  deriving DecidableEq, Repr

/-- One pass of the loop body of `animation.py` lines 37-40, restricted
to a single grid point:
`z[m] = z[m]*z[m] + c` then `m[|z| > 2] = False` then `n[m] = i`. -/
def ptStep (c : Cx) (s : PtState) (i : ℕ) : PtState :=
  let z' := if s.m then s.z * s.z + c else s.z
  let m' := if 4 < z'.normSq then false else s.m
  let n' := if m' then i else s.n
  ⟨z', m', n'⟩

/-- The value the loop records for one grid point with initial iterate
`z0`: run the per-point loop body for `i = 0, …, maxIter-1` from the
initial state (`z0`, active, `0`). -/
def escapeValue (z0 c : Cx) (maxIter : ℕ) : ℕ :=
  ((List.range maxIter).foldl (ptStep c) ⟨z0, true, 0⟩).n

/-- The orbit of `z0` under `z ↦ z² + c`: `orbit z0 c t` is the iterate
after `t` updates. -/
def orbit (z0 c : Cx) : ℕ → Cx
  | 0 => z0
  | t + 1 => orbit z0 c t * orbit z0 c t + c

/-- Elementwise map over a matrix (list of rows). -/
def map2D {α β : Type} (f : α → β) (A : List (List α)) : List (List β) :=
  A.map (List.map f)

/-- Elementwise combination of two matrices, the shape a `numpy`
broadcasted binary operation takes on equal-shape arrays. -/
def zipWith2D {α β γ : Type} (f : α → β → γ) (A : List (List α)) (B : List (List β)) :
    List (List γ) :=
  List.zipWith (List.zipWith f) A B

/-- The whole-frame state of the vectorized loop: the arrays `z`,
`m_matrix` and `n_matrix` of `animation.py`. -/
structure FrameState where
  z : List (List Cx)
  m : List (List Bool)
  n : List (List ℕ)

/-- One iteration of the vectorized loop body (lines 38-40 of
`animation.py`), acting on whole arrays:
masked update of `z`, demotion of escaped points in `m_matrix`, and
recording of `i` into `n_matrix` at the still-active points. -/
def frameStep (c : Cx) (s : FrameState) (i : ℕ) : FrameState :=
  let z' := zipWith2D (fun zv mv => if mv then zv * zv + c else zv) s.z s.m
  let m' := zipWith2D (fun zv mv => if 4 < Cx.normSq zv then false else mv) z' s.m
  let n' := zipWith2D (fun mv nv => if mv then i else nv) m' s.n
  ⟨z', m', n'⟩

/-- The initial `z` lattice (line 32): row `i`, column `j` holds
`xs[j] + ys[i]·1j`. -/
def initZ (xs ys : List ℚ) : List (List Cx) :=
  ys.map fun yv => xs.map fun xv => ⟨xv, yv⟩

/-- A constant matrix of the shape of the lattice
(`np.full((n, m), v)`). -/
def constMat {α : Type} (xs ys : List ℚ) (a : α) : List (List α) :=
  ys.map fun _ => xs.map fun _ => a

/-- The field computed by the vectorized loop on given coordinate axes:
`n_matrix` after `maxIter` passes of `frameStep` from the initial
arrays of lines 32-35. -/
def genFieldOnGrid (xs ys : List ℚ) (c : Cx) (maxIter : ℕ) : List (List ℕ) :=
  ((List.range maxIter).foldl (frameStep c)
    ⟨initZ xs ys, constMat xs ys true, constMat xs ys 0⟩).n

/-- The field generator of §4.1, as the code instantiates it: axes are
symmetric `linspace` lattices spanning `[-extentX, extentX]` and
`[-extentY, extentY]` (the code uses `extentX = m/s`, `extentY = n/s`
with `m, n, s = 960, 640, 400`), then the vectorized escape loop. -/
def genField (width height : ℕ) (extentX extentY : ℚ) (c : Cx) (maxIter : ℕ) :
    List (List ℕ) :=
  genFieldOnGrid (linspace (-extentX) extentX width) (linspace (-extentY) extentY height)
    c maxIter

/-- Total matrix entry accessor (row `i`, column `j`, with a default
outside the matrix). -/
def entry {α : Type} (d : α) (A : List (List α)) (i j : ℕ) : α :=
  (A.getD i []).getD j d

/-- The field value at grid position `(i, j)`. -/
def fieldAt (f : List (List ℕ)) (i j : ℕ) : ℕ :=
  entry 0 f i j

/-- Maximum of a row of field values. -/
def rowMax (r : List ℕ) : ℕ :=
  r.foldl max 0

/-- The reduction `n_matrix.max()`: the maximum value across the whole field. -/
def fieldMax (f : List (List ℕ)) : ℕ :=
  (f.map rowMax).foldl max 0

/-- The display normalization of line 43:
`1.0 - (n_matrix / n_matrix.max())`, elementwise and unguarded. -/
def normalize (f : List (List ℕ)) : List (List ℚ) :=
  map2D (fun v : ℕ => 1 - (v : ℚ) / (fieldMax f : ℚ)) f

/-- The renderer's error type. -/
inductive GenError where
  | invalidParameter
  deriving DecidableEq, Repr

/-- Modelled from the spec: the parameter validation of §4.1/§7 is not
present in `animation.py` (the script runs the loop only on fixed
positive constants, so no checking code exists in the source); the
spec's contract requires `width`, `height`, `maxIter` positive and
`extentX`, `extentY` positive, failing with `InvalidParameter`
otherwise and computing the §4.1 field otherwise. -/
def genFieldChecked (width height : ℕ) (extentX extentY : ℚ) (c : Cx) (maxIter : ℕ) :
    Except GenError (List (List ℕ)) :=
  if width = 0 ∨ height = 0 ∨ maxIter = 0 ∨ extentX ≤ 0 ∨ extentY ≤ 0 then
    .error .invalidParameter
  else
    .ok (genField width height extentX extentY c maxIter)

/-- The escape-recording policy exactly as the spec's §4.1 step 2 words
it: scanning `i` from `0`, the magnitude test is made on the current
iterate *before* the update `z = z² + c` of that step; on the first
failing `i` the recorded value is `i - 1` for `i > 0` and `0` for
`i = 0`; if the scan exhausts the budget (`fuel` reaches `0` with the
step counter at `maxIter`), the value is `maxIter - 1`. -/
def scanBefore (c : Cx) : Cx → ℕ → ℕ → ℕ
  | _, i, 0 => i - 1
  | z, i, fuel + 1 =>
    if 4 < z.normSq then (if i = 0 then 0 else i - 1)
    else scanBefore c (z * z + c) (i + 1) fuel

/-- The spec's §4.1 step-2 policy applied to a whole budget: check
before update, starting at `i = 0` with `fuel = maxIter`. -/
def specPolicyValue (z0 c : Cx) (maxIter : ℕ) : ℕ :=
  scanBefore c z0 0 maxIter

/-- The same scan with the magnitude test made on the iterate *after*
the update of that step, which is what the code does: on the first
loop index `i` whose freshly updated iterate exceeds the threshold the
value is `i - 1` (truncated at `0`); exhaustion again yields the final
step counter minus one. -/
def scanAfter (c : Cx) : Cx → ℕ → ℕ → ℕ
  | _, i, 0 => i - 1
  | z, i, fuel + 1 =>
    let z' := z * z + c
    if 4 < z'.normSq then i - 1
    else scanAfter c z' (i + 1) fuel

/-- The check-after-update policy applied to a whole budget. -/
def amendedPolicyValue (z0 c : Cx) (maxIter : ℕ) : ℕ :=
  scanAfter c z0 0 maxIter

/-- Messages a page surfaces to the user (`st.error` / `st.success`). -/
inductive UiMsg where
  | errorBox (text : String)
  | successBox (text : String)
  deriving DecidableEq, Repr

/-- Wrapper `openai_create_image` of `openai-image.py`: the remote DALL-E call
is abstracted as its outcome; on success the wrapper returns the image
URL, on any exception it shows `st.error` and returns `None`. -/
def openai_create_image (remote : Except String String) : Option String × List UiMsg :=
  match remote with
  | .ok url => (some url, [])
  | .error e => (none, [.errorBox ("Error generating image with DALL-E: " ++ e)])

/-- Wrapper `generate_prompt_with_chatgpt` of `openai-image.py`: on success the
wrapper returns the stripped completion text, on any exception it shows
`st.error` and returns `None`. -/
def generate_prompt_with_chatgpt (remote : Except String String) :
    Option String × List UiMsg :=
  match remote with
  | .ok content => (some content.trim, [])
  | .error e => (none, [.errorBox ("Error generating improved prompt with ChatGPT: " ++ e)])

/-- Wrapper `VisionProcessor.vision_analyze_image` of `openai-image.py`,
restricted to the remote-call boundary: on success the wrapper returns
the model's description, on any exception it shows `st.error` and
returns `None`. -/
def vision_analyze_image (remote : Except String String) : Option String × List UiMsg :=
  match remote with
  | .ok content => (some content, [])
  | .error e => (none, [.errorBox ("An error occurred during image analysis: " ++ e)])

/-- Wrapper `openai_transcribe` of `openai-whisper.py`: on success the wrapper
returns the transcript text, on any exception it shows `st.error` and
returns the empty string. -/
def openai_transcribe (remote : Except String String) : String × List UiMsg :=
  match remote with
  | .ok text => (text, [])
  | .error e => ("", [.errorBox ("Error during transcription: " ++ e)])

/-- Wrapper `openai_translate` of `openai-whisper.py`: on success the wrapper
returns the English text, on any exception it shows `st.error` and
returns the empty string. -/
def openai_translate (remote : Except String String) : String × List UiMsg :=
  match remote with
  | .ok text => (text, [])
  | .error e => ("", [.errorBox ("Error during translation: " ++ e)])

/-- Wrapper `text_to_speech` of `openai-whisper.py`: on success the wrapper
saves the audio, shows `st.success` and returns the output path; on any
exception it shows `st.error` and returns `None`. -/
def text_to_speech (remote : Except String Unit) (outputPath : String) :
    Option String × List UiMsg :=
  match remote with
  | .ok _ => (some outputPath, [.successBox ("Text-to-speech audio saved to " ++ outputPath)])
  | .error e => (none, [.errorBox ("Error during text-to-speech conversion: " ++ e)])

/-! ### Component lemmas for the complex arithmetic -/

theorem Cx.add_re (u v : Cx) : (u + v).re = u.re + v.re := rfl

theorem Cx.add_im (u v : Cx) : (u + v).im = u.im + v.im := rfl

theorem Cx.mul_re (u v : Cx) : (u * v).re = u.re * v.re - u.im * v.im := rfl

theorem Cx.mul_im (u v : Cx) : (u * v).im = u.re * v.im + u.im * v.re := rfl

theorem Cx.normSq_conj (z : Cx) : z.conj.normSq = z.normSq := by
  simp only [Cx.conj, Cx.normSq]
  ring

theorem Cx.normSq_mul (u v : Cx) : (u * v).normSq = u.normSq * v.normSq := by
  simp only [Cx.normSq, Cx.mul_re, Cx.mul_im]
  ring

theorem Cx.conj_sq_add (z c : Cx) (hc : c.im = 0) :
    z.conj * z.conj + c = (z * z + c).conj := by
  ext
  · simp only [Cx.conj, Cx.add_re, Cx.mul_re]
    ring
  · simp only [Cx.conj, Cx.add_im, Cx.mul_im, hc]
    ring

theorem Cx.add_zero_cx (z : Cx) : z + (⟨0, 0⟩ : Cx) = z := by
  ext
  · simp [Cx.add_re]
  · simp [Cx.add_im]

/-! ### The per-point loop as a scan

The loop body freezes a point completely once its mask bit is cleared,
so the per-point fold is equivalent to a scan that stops at the first
update whose result leaves the radius-2 disk.  This is the bridge
between `escapeValue` (the code) and the recording policies. -/

theorem ptStep_inactive (c z : Cx) (n i : ℕ) :
    ptStep c ⟨z, false, n⟩ i = ⟨z, false, n⟩ := by
  simp [ptStep]

theorem foldl_ptStep_inactive (c z : Cx) (n : ℕ) (l : List ℕ) :
    l.foldl (ptStep c) ⟨z, false, n⟩ = ⟨z, false, n⟩ := by
  induction l with
  | nil => rfl
  | cons a l ih => rw [List.foldl_cons, ptStep_inactive, ih]

theorem foldl_range'_ptStep (c : Cx) :
    ∀ (fuel i : ℕ) (z : Cx),
      ((List.range' i fuel).foldl (ptStep c) ⟨z, true, i - 1⟩).n = scanAfter c z i fuel := by
  intro fuel
  induction fuel with
  | zero => intro i z; rfl
  | succ fuel ih =>
    intro i z
    rw [List.range'_succ, List.foldl_cons]
    by_cases h : 4 < (z * z + c).normSq
    · have hstep : ptStep c ⟨z, true, i - 1⟩ i = ⟨z * z + c, false, i - 1⟩ := by
        simp [ptStep, h]
      rw [hstep, foldl_ptStep_inactive]
      simp [scanAfter, h]
    · have hstep : ptStep c ⟨z, true, i - 1⟩ i = ⟨z * z + c, true, i⟩ := by
        simp [ptStep, h]
      rw [hstep]
      have hrec := ih (i + 1) (z * z + c)
      simp only [Nat.add_sub_cancel] at hrec
      rw [hrec]
      simp [scanAfter, h]

theorem escapeValue_eq_scanAfter (z0 c : Cx) (maxIter : ℕ) :
    escapeValue z0 c maxIter = scanAfter c z0 0 maxIter := by
  have h := foldl_range'_ptStep c maxIter 0 z0
  rw [escapeValue, List.range_eq_range']
  exact h

/-- Orbit characterization of the check-after-update scan: if the first
post-update iterate (starting from step `j`) that leaves the disk is
iterate `k + 1`, the scan returns `k - 1`. -/
theorem scanAfter_first_escape (z0 c : Cx) :
    ∀ (fuel j k : ℕ), j ≤ k → k < j + fuel →
      4 < (orbit z0 c (k + 1)).normSq →
      (∀ t, j ≤ t → t < k → (orbit z0 c (t + 1)).normSq ≤ 4) →
      scanAfter c (orbit z0 c j) j fuel = k - 1 := by
  intro fuel
  induction fuel with
  | zero => intro j k hjk hlt _ _; omega
  | succ fuel ih =>
    intro j k hjk hlt hesc hbefore
    have horb : orbit z0 c j * orbit z0 c j + c = orbit z0 c (j + 1) := rfl
    rcases Nat.eq_or_lt_of_le hjk with hkj | hjk'
    · subst hkj
      rw [scanAfter]
      simp only [horb]
      rw [if_pos hesc]
    · have hj1 : (orbit z0 c (j + 1)).normSq ≤ 4 := hbefore j le_rfl hjk'
      rw [scanAfter]
      simp only [horb]
      rw [if_neg (by exact not_lt.mpr hj1)]
      exact ih (j + 1) k hjk' (by omega) hesc fun t ht htk => hbefore t (by omega) htk

/-- Orbit characterization of the scan when no post-update iterate
within the budget leaves the disk: the scan runs the budget out and
returns the final step counter minus one. -/
theorem scanAfter_no_escape (z0 c : Cx) :
    ∀ (fuel j : ℕ),
      (∀ t, j ≤ t → t < j + fuel → (orbit z0 c (t + 1)).normSq ≤ 4) →
      scanAfter c (orbit z0 c j) j fuel = j + fuel - 1 := by
  intro fuel
  induction fuel with
  | zero => intro j _; rfl
  | succ fuel ih =>
    intro j hall
    have horb : orbit z0 c j * orbit z0 c j + c = orbit z0 c (j + 1) := rfl
    have hj1 : (orbit z0 c (j + 1)).normSq ≤ 4 := hall j le_rfl (by omega)
    rw [scanAfter]
    simp only [horb]
    rw [if_neg (by exact not_lt.mpr hj1)]
    have := ih (j + 1) fun t ht htk => hall t (by omega) (by omega)
    rw [this]
    omega

/-- C1, counterexample: the claim's step-2a policy (threshold checked
*before* the update of the step) does not describe the code.  At the
call `genField 3 3 2 2 (3/2) 3` the grid point at row 1, column 1 is
the origin; its orbit under `z ↦ z² + 3/2` exceeds magnitude 2 within
the budget (at orbit index 2), the step-2a policy records `2 - 1 = 1`,
but the generator records `0`. -/
theorem escape_recording_policy_counterexample :
    entry ⟨0, 0⟩ (initZ (linspace (-2) 2 3) (linspace (-2) 2 3)) 1 1 = (⟨0, 0⟩ : Cx) ∧
    4 < (orbit ⟨0, 0⟩ ⟨3/2, 0⟩ 2).normSq ∧
    specPolicyValue ⟨0, 0⟩ ⟨3/2, 0⟩ 3 = 1 ∧
    fieldAt (genField 3 3 2 2 ⟨3/2, 0⟩ 3) 1 1 = 0 := by
  refine ⟨?_, ?_, ?_, ?_⟩
  · norm_num [entry, initZ, linspace, List.range_succ, Cx.mk.injEq]
  · norm_num [orbit, Cx.normSq, Cx.mul_re, Cx.mul_im, Cx.add_re, Cx.add_im]
  · norm_num [specPolicyValue, scanBefore, Cx.normSq, Cx.mul_re, Cx.mul_im, Cx.add_re,
      Cx.add_im]
  · norm_num [fieldAt, genField, genFieldOnGrid, linspace, List.range_succ, initZ, constMat,
      frameStep, zipWith2D, ptStep, entry, Cx.normSq, Cx.mul_re, Cx.mul_im, Cx.add_re,
      Cx.add_im]

/-- C1 (amended): the recorded value follows the check-**after**-update
policy.  Scanning `i` from `0`, the loop first updates `z = z² + c` and
only then tests `|z| > 2`; at the first loop index `i` whose freshly
updated iterate (orbit index `i + 1`) exceeds the threshold, the
recorded value is `i - 1` when `i > 0` and `0` when `i = 0` (natural
truncated subtraction gives both); points whose post-update iterates
never exceed the threshold within the budget record `maxIter - 1`. -/
theorem escape_recording_check_after_update (z0 c : Cx) (maxIter : ℕ) :
    (∀ i, i < maxIter → 4 < (orbit z0 c (i + 1)).normSq →
      (∀ t, t < i → (orbit z0 c (t + 1)).normSq ≤ 4) →
      escapeValue z0 c maxIter = i - 1) ∧
    ((∀ t, t < maxIter → (orbit z0 c (t + 1)).normSq ≤ 4) →
      escapeValue z0 c maxIter = maxIter - 1) := by
  constructor
  · intro i hi hesc hbefore
    rw [escapeValue_eq_scanAfter]
    have h := scanAfter_first_escape z0 c maxIter 0 i (Nat.zero_le i) (by omega) hesc
      fun t _ htk => hbefore t htk
    simpa [orbit] using h
  · intro hall
    rw [escapeValue_eq_scanAfter]
    have h := scanAfter_no_escape z0 c maxIter 0 fun t _ ht => hall t (by omega)
    simpa [orbit] using h

/-- Witness for the amended C1 theorem: at `z0 = 3`, `c = 0` the first
post-update iterate `9` already exceeds the threshold at loop index 0,
so the recorded value is `0`; at `z0 = 0`, `c = 0` no iterate ever
escapes and a budget of `2` records `1`. -/
theorem escape_recording_check_after_update_witness :
    (0 : ℕ) < 2 ∧ 4 < (orbit ⟨3, 0⟩ ⟨0, 0⟩ 1).normSq ∧
    escapeValue ⟨3, 0⟩ ⟨0, 0⟩ 2 = 0 - 1 ∧
    escapeValue ⟨0, 0⟩ ⟨0, 0⟩ 2 = 2 - 1 :=
  ⟨by norm_num,
    by norm_num [orbit, Cx.normSq, Cx.mul_re, Cx.mul_im, Cx.add_re, Cx.add_im],
    (escape_recording_check_after_update ⟨3, 0⟩ ⟨0, 0⟩ 2).1 0 (by norm_num)
      (by norm_num [orbit, Cx.normSq, Cx.mul_re, Cx.mul_im, Cx.add_re, Cx.add_im])
      fun t ht => absurd ht (Nat.not_lt_zero t),
    (escape_recording_check_after_update ⟨0, 0⟩ ⟨0, 0⟩ 2).2 (by
      intro t ht
      interval_cases t <;>
        norm_num [orbit, Cx.normSq, Cx.mul_re, Cx.mul_im, Cx.add_re, Cx.add_im])⟩

/-! ### Shape and pointwise structure of the vectorized loop -/

/-- An `H × W` matrix: `H` rows, each of width `W`. -/
def IsMat {α : Type} (H W : ℕ) (A : List (List α)) : Prop :=
  A.length = H ∧ ∀ i (hi : i < A.length), A[i].length = W

theorem isMat_constMat {α : Type} (xs ys : List ℚ) (a : α) :
    IsMat ys.length xs.length (constMat xs ys a) := by
  refine ⟨by simp [constMat], ?_⟩
  intro i hi
  simp [constMat]

theorem isMat_initZ (xs ys : List ℚ) : IsMat ys.length xs.length (initZ xs ys) := by
  refine ⟨by simp [initZ], ?_⟩
  intro i hi
  simp [initZ]

theorem isMat_zipWith2D {α β γ : Type} (f : α → β → γ) {H W : ℕ}
    {A : List (List α)} {B : List (List β)} (hA : IsMat H W A) (hB : IsMat H W B) :
    IsMat H W (zipWith2D f A B) := by
  obtain ⟨hAl, hAr⟩ := hA
  obtain ⟨hBl, hBr⟩ := hB
  have hlen : (zipWith2D f A B).length = H := by
    simp [zipWith2D, List.length_zipWith, hAl, hBl]
  refine ⟨hlen, ?_⟩
  intro i hi
  have hiA : i < A.length := by omega
  have hiB : i < B.length := by omega
  simp only [zipWith2D] at hi ⊢
  rw [List.getElem_zipWith, List.length_zipWith, hAr i hiA, hBr i hiB, Nat.min_self]

theorem entry_zipWith2D {α β γ : Type} (f : α → β → γ) (da : α) (db : β) (dc : γ)
    {H W : ℕ} {A : List (List α)} {B : List (List β)}
    (hA : IsMat H W A) (hB : IsMat H W B) {i j : ℕ} (hi : i < H) (hj : j < W) :
    entry dc (zipWith2D f A B) i j = f (entry da A i j) (entry db B i j) := by
  obtain ⟨hZl, hZr⟩ := isMat_zipWith2D f hA hB
  obtain ⟨hAl, hAr⟩ := hA
  obtain ⟨hBl, hBr⟩ := hB
  have hiZ : i < (zipWith2D f A B).length := by omega
  have hiA : i < A.length := by omega
  have hiB : i < B.length := by omega
  have hjA : j < A[i].length := by rw [hAr i hiA]; exact hj
  have hjB : j < B[i].length := by rw [hBr i hiB]; exact hj
  have hjZ : j < (List.zipWith f A[i] B[i]).length := by
    rw [List.length_zipWith]; omega
  rw [entry, entry, entry, List.getD_eq_getElem _ _ hiZ, List.getD_eq_getElem _ _ hiA,
    List.getD_eq_getElem _ _ hiB]
  simp only [zipWith2D] at hiZ ⊢
  rw [List.getElem_zipWith]
  rw [List.getD_eq_getElem _ _ hjZ, List.getD_eq_getElem _ _ hjA,
    List.getD_eq_getElem _ _ hjB, List.getElem_zipWith]

theorem entry_constMat {α : Type} (d a : α) (xs ys : List ℚ) {i j : ℕ}
    (hi : i < ys.length) (hj : j < xs.length) :
    entry d (constMat xs ys a) i j = a := by
  have h1 : i < (constMat xs ys a).length := by simpa [constMat] using hi
  rw [entry, List.getD_eq_getElem _ _ h1]
  have h2 : (constMat xs ys a)[i] = xs.map fun _ => a := by simp [constMat]
  rw [h2, List.getD_eq_getElem _ _ (by simpa using hj)]
  simp

theorem entry_initZ (d : Cx) (xs ys : List ℚ) {i j : ℕ}
    (hi : i < ys.length) (hj : j < xs.length) :
    entry d (initZ xs ys) i j = ⟨xs.getD j 0, ys.getD i 0⟩ := by
  have h1 : i < (initZ xs ys).length := by simpa [initZ] using hi
  rw [entry, List.getD_eq_getElem _ _ h1]
  have h2 : (initZ xs ys)[i] = xs.map fun xv => (⟨xv, ys[i]⟩ : Cx) := by simp [initZ]
  rw [h2, List.getD_eq_getElem _ _ (by simpa using hj)]
  rw [List.getElem_map, List.getD_eq_getElem _ _ hj, List.getD_eq_getElem _ _ hi]

theorem frameStep_shape (c : Cx) {H W : ℕ} {s : FrameState}
    (hz : IsMat H W s.z) (hm : IsMat H W s.m) (hn : IsMat H W s.n) (a : ℕ) :
    IsMat H W (frameStep c s a).z ∧ IsMat H W (frameStep c s a).m ∧
      IsMat H W (frameStep c s a).n :=
  ⟨isMat_zipWith2D _ hz hm, isMat_zipWith2D _ (isMat_zipWith2D _ hz hm) hm,
    isMat_zipWith2D _ (isMat_zipWith2D _ (isMat_zipWith2D _ hz hm) hm) hn⟩

theorem frameStep_entry (c : Cx) {H W : ℕ} {s : FrameState}
    (hz : IsMat H W s.z) (hm : IsMat H W s.m) (hn : IsMat H W s.n) (a : ℕ)
    {i j : ℕ} (hi : i < H) (hj : j < W) :
    entry ⟨0, 0⟩ (frameStep c s a).z i j
        = (ptStep c ⟨entry ⟨0, 0⟩ s.z i j, entry true s.m i j, entry 0 s.n i j⟩ a).z ∧
    entry true (frameStep c s a).m i j
        = (ptStep c ⟨entry ⟨0, 0⟩ s.z i j, entry true s.m i j, entry 0 s.n i j⟩ a).m ∧
    entry 0 (frameStep c s a).n i j
        = (ptStep c ⟨entry ⟨0, 0⟩ s.z i j, entry true s.m i j, entry 0 s.n i j⟩ a).n := by
  have hz' := isMat_zipWith2D (fun (zv : Cx) (mv : Bool) => if mv then zv * zv + c else zv)
    hz hm
  have hm' := isMat_zipWith2D (fun (zv : Cx) (mv : Bool) => if 4 < Cx.normSq zv then false
    else mv) hz' hm
  have e1 : entry (⟨0, 0⟩ : Cx) (frameStep c s a).z i j
      = (ptStep c ⟨entry (⟨0, 0⟩ : Cx) s.z i j, entry true s.m i j, entry 0 s.n i j⟩ a).z :=
    entry_zipWith2D _ _ _ _ hz hm hi hj
  have e2raw : entry true (frameStep c s a).m i j
      = if 4 < Cx.normSq (entry (⟨0, 0⟩ : Cx) (frameStep c s a).z i j) then false
        else entry true s.m i j :=
    entry_zipWith2D _ _ _ _ hz' hm hi hj
  have e2 : entry true (frameStep c s a).m i j
      = (ptStep c ⟨entry (⟨0, 0⟩ : Cx) s.z i j, entry true s.m i j, entry 0 s.n i j⟩ a).m := by
    rw [e2raw, e1]
    rfl
  have e3raw : entry 0 (frameStep c s a).n i j
      = if entry true (frameStep c s a).m i j then a else entry 0 s.n i j :=
    entry_zipWith2D _ _ _ _ hm' hn hi hj
  have e3 : entry 0 (frameStep c s a).n i j
      = (ptStep c ⟨entry (⟨0, 0⟩ : Cx) s.z i j, entry true s.m i j, entry 0 s.n i j⟩ a).n := by
    rw [e3raw, e2]
    rfl
  exact ⟨e1, e2, e3⟩

theorem foldl_frameStep_pointwise (c : Cx) (l : List ℕ) :
    ∀ {H W : ℕ} (s : FrameState),
      IsMat H W s.z → IsMat H W s.m → IsMat H W s.n →
      (IsMat H W (l.foldl (frameStep c) s).z ∧ IsMat H W (l.foldl (frameStep c) s).m ∧
        IsMat H W (l.foldl (frameStep c) s).n) ∧
      ∀ i j, i < H → j < W →
        entry ⟨0, 0⟩ (l.foldl (frameStep c) s).z i j
            = (l.foldl (ptStep c) ⟨entry ⟨0, 0⟩ s.z i j, entry true s.m i j, entry 0 s.n i j⟩).z ∧
        entry true (l.foldl (frameStep c) s).m i j
            = (l.foldl (ptStep c) ⟨entry ⟨0, 0⟩ s.z i j, entry true s.m i j, entry 0 s.n i j⟩).m ∧
        entry 0 (l.foldl (frameStep c) s).n i j
            = (l.foldl (ptStep c) ⟨entry ⟨0, 0⟩ s.z i j, entry true s.m i j, entry 0 s.n i j⟩).n := by
  induction l with
  | nil =>
    intro H W s hz hm hn
    exact ⟨⟨hz, hm, hn⟩, fun i j hi hj => ⟨rfl, rfl, rfl⟩⟩
  | cons a l ih =>
    intro H W s hz hm hn
    obtain ⟨hz', hm', hn'⟩ := frameStep_shape c hz hm hn a
    obtain ⟨hshapes, hpt⟩ := ih (frameStep c s a) hz' hm' hn'
    rw [List.foldl_cons]
    refine ⟨hshapes, ?_⟩
    intro i j hi hj
    obtain ⟨h1, h2, h3⟩ := hpt i j hi hj
    obtain ⟨e1, e2, e3⟩ := frameStep_entry c hz hm hn a hi hj
    rw [e1, e2, e3] at h1 h2 h3
    exact ⟨h1, h2, h3⟩

theorem length_linspace (a b : ℚ) (num : ℕ) : (linspace a b num).length = num := by
  rw [linspace, List.length_map, List.length_range]

/-- Bridge: the field the vectorized loop produces at position `(i, j)`
is the per-point fold applied to that position's own initial iterate. -/
theorem fieldAt_genFieldOnGrid (xs ys : List ℚ) (c : Cx) (maxIter : ℕ) {i j : ℕ}
    (hi : i < ys.length) (hj : j < xs.length) :
    fieldAt (genFieldOnGrid xs ys c maxIter) i j
      = escapeValue ⟨xs.getD j 0, ys.getD i 0⟩ c maxIter := by
  have h := foldl_frameStep_pointwise c (List.range maxIter)
    ⟨initZ xs ys, constMat xs ys true, constMat xs ys 0⟩
    (isMat_initZ xs ys) (isMat_constMat xs ys true) (isMat_constMat xs ys 0)
  have h3 := (h.2 i j hi hj).2.2
  rw [fieldAt, genFieldOnGrid, h3, entry_initZ ⟨0, 0⟩ xs ys hi hj,
    entry_constMat true true xs ys hi hj, entry_constMat 0 0 xs ys hi hj]
  rfl

theorem fieldAt_genField (width height : ℕ) (eX eY : ℚ) (c : Cx) (maxIter : ℕ) {i j : ℕ}
    (hi : i < height) (hj : j < width) :
    fieldAt (genField width height eX eY c maxIter) i j
      = escapeValue ⟨(linspace (-eX) eX width).getD j 0, (linspace (-eY) eY height).getD i 0⟩
          c maxIter := by
  rw [genField]
  exact fieldAt_genFieldOnGrid _ _ c maxIter
    (by rw [length_linspace]; exact hi) (by rw [length_linspace]; exact hj)

/-- C4: the field produced by the incremental in-place masked iteration
equals, at every grid position, the value of an independent per-point
scalar computation (`escapeValue`) applied to that position's own
initial iterate; each point's value depends only on its own `z0`, `c`
and `maxIter`, with no cross-point data dependency. -/
theorem masked_loop_refines_per_point (width height : ℕ) (eX eY : ℚ) (c : Cx)
    (maxIter i j : ℕ) (hi : i < height) (hj : j < width) :
    fieldAt (genField width height eX eY c maxIter) i j
      = escapeValue ⟨(linspace (-eX) eX width).getD j 0, (linspace (-eY) eY height).getD i 0⟩
          c maxIter :=
  fieldAt_genField width height eX eY c maxIter hi hj

/-- Witness for C4 at `width = height = 2`, extents `1`, `c = 0`,
`maxIter = 3`, position `(0, 1)`; the shared value evaluates to `0`. -/
theorem masked_loop_refines_per_point_witness :
    ((0 : ℕ) < 2 ∧ (1 : ℕ) < 2) ∧
    fieldAt (genField 2 2 1 1 ⟨0, 0⟩ 3) 0 1
      = escapeValue ⟨(linspace (-1) 1 2).getD 1 0, (linspace (-1) 1 2).getD 0 0⟩ ⟨0, 0⟩ 3 ∧
    escapeValue ⟨(linspace (-1) 1 2).getD 1 0, (linspace (-1) 1 2).getD 0 0⟩ ⟨0, 0⟩ 3 = 0 :=
  ⟨⟨by norm_num, by norm_num⟩,
    masked_loop_refines_per_point 2 2 1 1 ⟨0, 0⟩ 3 0 1 (by norm_num) (by norm_num),
    by norm_num [escapeValue, linspace, List.range_succ, ptStep, Cx.normSq, Cx.mul_re,
      Cx.mul_im, Cx.add_re, Cx.add_im, List.getD_cons_zero, List.getD_cons_succ]⟩

/-! ### Bounds on the recorded values -/

theorem foldl_ptStep_n_lt (c : Cx) (K : ℕ) :
    ∀ (l : List ℕ) (s : PtState), (∀ x ∈ l, x < K) → s.n < K →
      (l.foldl (ptStep c) s).n < K := by
  intro l
  induction l with
  | nil => intro s _ hs; exact hs
  | cons a l ih =>
    intro s hl hs
    rw [List.foldl_cons]
    apply ih (ptStep c s a) fun x hx => hl x (List.mem_cons_of_mem a hx)
    have ha : a < K := hl a (List.mem_cons_self a l)
    have hn0 : (ptStep c s a).n = if (ptStep c s a).m = true then a else s.n := rfl
    rw [hn0]
    split <;> omega

theorem escapeValue_lt (z0 c : Cx) (maxIter : ℕ) (h : 0 < maxIter) :
    escapeValue z0 c maxIter < maxIter :=
  foldl_ptStep_n_lt c maxIter (List.range maxIter) ⟨z0, true, 0⟩
    (fun x hx => List.mem_range.mp hx) h

/-- C3: for every valid input (positive resolution, positive extents,
positive iteration budget, any `c`), every value of the produced field
lies in the closed interval `[0, maxIter - 1]`. -/
theorem field_values_in_bounds (width height : ℕ) (eX eY : ℚ) (c : Cx) (maxIter i j : ℕ)
    (hw : 0 < width) (hh : 0 < height) (hex : 0 < eX) (hey : 0 < eY) (hm : 0 < maxIter)
    (hi : i < height) (hj : j < width) :
    0 ≤ fieldAt (genField width height eX eY c maxIter) i j ∧
    fieldAt (genField width height eX eY c maxIter) i j ≤ maxIter - 1 := by
  refine ⟨Nat.zero_le _, ?_⟩
  rw [fieldAt_genField width height eX eY c maxIter hi hj]
  have h := escapeValue_lt
    ⟨(linspace (-eX) eX width).getD j 0, (linspace (-eY) eY height).getD i 0⟩ c maxIter hm
  omega

/-- Witness for C3 at `width = height = 2`, extents `1`, `c = 0`,
`maxIter = 3`, position `(0, 0)`; the value evaluates to `0 ≤ 2`. -/
theorem field_values_in_bounds_witness :
    ((0 : ℕ) < 2 ∧ (0 : ℚ) < 1 ∧ (0 : ℕ) < 3) ∧
    (0 ≤ fieldAt (genField 2 2 1 1 ⟨0, 0⟩ 3) 0 0 ∧
      fieldAt (genField 2 2 1 1 ⟨0, 0⟩ 3) 0 0 ≤ 3 - 1) ∧
    fieldAt (genField 2 2 1 1 ⟨0, 0⟩ 3) 0 0 = 0 :=
  ⟨⟨by norm_num, by norm_num, by norm_num⟩,
    field_values_in_bounds 2 2 1 1 ⟨0, 0⟩ 3 0 0 (by norm_num) (by norm_num) (by norm_num)
      (by norm_num) (by norm_num) (by norm_num) (by norm_num),
    by norm_num [fieldAt, genField, genFieldOnGrid, linspace, List.range_succ, initZ,
      constMat, frameStep, zipWith2D, ptStep, entry, Cx.normSq, Cx.mul_re, Cx.mul_im,
      Cx.add_re, Cx.add_im]⟩

/-! ### Conjugation symmetry -/

theorem ptStep_conj (c : Cx) (hc : c.im = 0) (z : Cx) (m : Bool) (n i : ℕ) :
    ptStep c ⟨z.conj, m, n⟩ i
      = ⟨(ptStep c ⟨z, m, n⟩ i).z.conj, (ptStep c ⟨z, m, n⟩ i).m,
          (ptStep c ⟨z, m, n⟩ i).n⟩ := by
  cases m <;>
    simp [ptStep, Cx.conj_sq_add z c hc, Cx.normSq_conj]

theorem foldl_ptStep_conj (c : Cx) (hc : c.im = 0) (l : List ℕ) :
    ∀ (z : Cx) (m : Bool) (n : ℕ),
      l.foldl (ptStep c) ⟨z.conj, m, n⟩
        = ⟨(l.foldl (ptStep c) ⟨z, m, n⟩).z.conj, (l.foldl (ptStep c) ⟨z, m, n⟩).m,
            (l.foldl (ptStep c) ⟨z, m, n⟩).n⟩ := by
  induction l with
  | nil => intro z m n; rfl
  | cons a l ih =>
    intro z m n
    rw [List.foldl_cons, List.foldl_cons, ptStep_conj c hc z m n a]
    exact ih (ptStep c ⟨z, m, n⟩ a).z (ptStep c ⟨z, m, n⟩ a).m (ptStep c ⟨z, m, n⟩ a).n

theorem escapeValue_conj (z0 c : Cx) (maxIter : ℕ) (hc : c.im = 0) :
    escapeValue z0.conj c maxIter = escapeValue z0 c maxIter := by
  rw [escapeValue, escapeValue, foldl_ptStep_conj c hc (List.range maxIter) z0 true 0]

theorem linspace_getD (a b : ℚ) (num : ℕ) {k : ℕ} (hk : k < num) :
    (linspace a b num).getD k 0 = a + (k : ℚ) * ((b - a) / ((num : ℚ) - 1)) := by
  have h1 : k < (linspace a b num).length := by rw [length_linspace]; exact hk
  rw [List.getD_eq_getElem _ _ h1]
  simp [linspace]

/-- The symmetric `linspace` lattice spanning `[-e, e]` with at least
two samples satisfies `ys[H-1-i] = -ys[i]` exactly. -/
theorem linspace_getD_symm (e : ℚ) (H : ℕ) (hH : 2 ≤ H) {i : ℕ} (hi : i < H) :
    (linspace (-e) e H).getD (H - 1 - i) 0 = -((linspace (-e) e H).getD i 0) := by
  rw [linspace_getD _ _ _ (by omega : H - 1 - i < H), linspace_getD _ _ _ hi]
  have hcast : ((H - 1 - i : ℕ) : ℚ) = (H : ℚ) - 1 - (i : ℚ) := by
    have h2 : H - 1 - i = H - (1 + i) := by omega
    rw [h2, Nat.cast_sub (by omega : 1 + i ≤ H)]
    push_cast
    ring
  rw [hcast]
  have hne : (H : ℚ) - 1 ≠ 0 := by
    have h2 : (2 : ℚ) ≤ (H : ℚ) := by exact_mod_cast hH
    linarith
  field_simp
  ring

/-- C5: for real `c` and the symmetric `linspace` grid (so
`ys[H-1-i] = -ys[i]`), the field is symmetric under reflection of the
`y` axis: `field[i][j] = field[H-1-i][j]`. -/
theorem field_symmetric_for_real_c (width height : ℕ) (eX eY : ℚ) (c : Cx)
    (maxIter i j : ℕ) (hc : c.im = 0) (hH : 2 ≤ height) (hi : i < height) (hj : j < width) :
    fieldAt (genField width height eX eY c maxIter) i j
      = fieldAt (genField width height eX eY c maxIter) (height - 1 - i) j := by
  rw [fieldAt_genField width height eX eY c maxIter hi hj,
    fieldAt_genField width height eX eY c maxIter (by omega : height - 1 - i < height) hj,
    linspace_getD_symm eY height hH hi]
  exact (escapeValue_conj ⟨(linspace (-eX) eX width).getD j 0,
    (linspace (-eY) eY height).getD i 0⟩ c maxIter hc).symm

/-- Witness for C5 on a `2 × 1` grid with `c = 1/2` (real): row 0 and
row 1 carry the same value, and both evaluate to `0`. -/
theorem field_symmetric_for_real_c_witness :
    ((⟨1/2, 0⟩ : Cx).im = 0 ∧ (2 : ℕ) ≤ 2 ∧ (0 : ℕ) < 2 ∧ (0 : ℕ) < 1) ∧
    fieldAt (genField 1 2 1 1 ⟨1/2, 0⟩ 2) 0 0
      = fieldAt (genField 1 2 1 1 ⟨1/2, 0⟩ 2) (2 - 1 - 0) 0 ∧
    fieldAt (genField 1 2 1 1 ⟨1/2, 0⟩ 2) 0 0 = 0 :=
  ⟨⟨rfl, by norm_num, by norm_num, by norm_num⟩,
    field_symmetric_for_real_c 1 2 1 1 ⟨1/2, 0⟩ 2 0 0 rfl (by norm_num) (by norm_num)
      (by norm_num),
    by norm_num [fieldAt, genField, genFieldOnGrid, linspace, List.range_succ, initZ,
      constMat, frameStep, zipWith2D, ptStep, entry, Cx.normSq, Cx.mul_re, Cx.mul_im,
      Cx.add_re, Cx.add_im]⟩

/-! ### Display normalization -/

theorem foldl_max_init_le : ∀ (l : List ℕ) (b : ℕ), b ≤ l.foldl max b := by
  intro l
  induction l with
  | nil => intro b; exact le_rfl
  | cons a l ih =>
    intro b
    rw [List.foldl_cons]
    exact le_trans (le_max_left b a) (ih (max b a))

theorem le_foldl_max_of_mem : ∀ (l : List ℕ) (a b : ℕ), a ∈ l → a ≤ l.foldl max b := by
  intro l
  induction l with
  | nil => intro a b ha; cases ha
  | cons x l ih =>
    intro a b ha
    rw [List.foldl_cons]
    rcases List.mem_cons.mp ha with h | h
    · subst h
      exact le_trans (le_max_right b a) (foldl_max_init_le l (max b a))
    · exact ih a (max b x) h

theorem fieldAt_le_fieldMax (f : List (List ℕ)) {i j : ℕ}
    (hi : i < f.length) (hj : j < (f.getD i []).length) :
    fieldAt f i j ≤ fieldMax f := by
  have hrow : f.getD i [] = f[i] := List.getD_eq_getElem _ _ hi
  have hmem : (f.getD i []).getD j 0 ∈ f.getD i [] := by
    rw [List.getD_eq_getElem _ _ hj]
    exact List.getElem_mem _
  have h1 : (f.getD i []).getD j 0 ≤ rowMax (f.getD i []) :=
    le_foldl_max_of_mem _ _ 0 hmem
  have h2 : rowMax (f.getD i []) ≤ fieldMax f := by
    apply le_foldl_max_of_mem
    rw [hrow]
    exact List.mem_map_of_mem rowMax (List.getElem_mem _)
  exact le_trans h1 h2

theorem entry_normalize (f : List (List ℕ)) {i j : ℕ}
    (hi : i < f.length) (hj : j < (f.getD i []).length) :
    entry 0 (normalize f) i j = 1 - (fieldAt f i j : ℚ) / (fieldMax f : ℚ) := by
  have hrow : f.getD i [] = f[i] := List.getD_eq_getElem _ _ hi
  have hj2 : j < (f[i]).length := by rw [← hrow]; exact hj
  have hi2 : i < (normalize f).length := by simpa [normalize, map2D] using hi
  rw [entry, List.getD_eq_getElem _ _ hi2]
  have hrow2 : (normalize f)[i] = (f[i]).map fun v : ℕ => 1 - (v : ℚ) / (fieldMax f : ℚ) := by
    simp [normalize, map2D]
  rw [hrow2, List.getD_eq_getElem _ _ (by simpa using hj2), List.getElem_map]
  rw [fieldAt, entry, hrow, List.getD_eq_getElem _ _ hj2]

/-- C6: for a field whose maximum is positive, the displayed intensity
`1 - field/max(field)` lies in `[0, 1]` everywhere, is exactly `0` at
every point achieving the maximum, and exactly `1` at every point with
field value `0`. -/
theorem normalization_round_trip (f : List (List ℕ)) (hmax : 0 < fieldMax f)
    (i j : ℕ) (hi : i < f.length) (hj : j < (f.getD i []).length) :
    (0 ≤ entry 0 (normalize f) i j ∧ entry 0 (normalize f) i j ≤ 1) ∧
    (fieldAt f i j = fieldMax f → entry 0 (normalize f) i j = 0) ∧
    (fieldAt f i j = 0 → entry 0 (normalize f) i j = 1) := by
  rw [entry_normalize f hi hj]
  have hle : fieldAt f i j ≤ fieldMax f := fieldAt_le_fieldMax f hi hj
  have hM : (0 : ℚ) < (fieldMax f : ℚ) := by exact_mod_cast hmax
  have hleQ : (fieldAt f i j : ℚ) ≤ (fieldMax f : ℚ) := by exact_mod_cast hle
  have hvQ : (0 : ℚ) ≤ (fieldAt f i j : ℚ) := Nat.cast_nonneg _
  refine ⟨⟨?_, ?_⟩, ?_, ?_⟩
  · have hd : (fieldAt f i j : ℚ) / (fieldMax f : ℚ) ≤ 1 := by
      rw [div_le_one hM]
      exact hleQ
    linarith
  · have hd : (0 : ℚ) ≤ (fieldAt f i j : ℚ) / (fieldMax f : ℚ) :=
      div_nonneg hvQ (le_of_lt hM)
    linarith
  · intro hEq
    rw [hEq, div_self (ne_of_gt hM)]
    ring
  · intro hEq
    rw [hEq]
    norm_num

/-- Witness for C6 on the field `[[0, 1], [2, 1]]` (maximum `2`): the
intensity is `0` at the maximum position `(1, 0)` and `1` at the
zero position `(0, 0)`. -/
theorem normalization_round_trip_witness :
    (0 < fieldMax [[0, 1], [2, 1]] ∧ (1 : ℕ) < [[0, 1], [2, 1]].length ∧
      (0 : ℕ) < ([[0, 1], [2, 1]].getD 1 []).length) ∧
    entry 0 (normalize [[0, 1], [2, 1]]) 1 0 = 0 ∧
    entry 0 (normalize [[0, 1], [2, 1]]) 0 0 = 1 :=
  ⟨⟨by decide, by decide, by decide⟩,
    (normalization_round_trip [[0, 1], [2, 1]] (by decide) 1 0 (by decide) (by decide)).2.1
      (by decide),
    (normalization_round_trip [[0, 1], [2, 1]] (by decide) 0 0 (by decide) (by decide)).2.2
      (by decide)⟩

/-! ### Parameter validation -/

/-- C2: a call with a non-positive `width`, `height` or `maxIter`, or a
non-positive `extentX` or `extentY`, fails with `InvalidParameter` and
no field is computed; every call with positive parameters succeeds with
the §4.1 field (no other failure mode). -/
theorem generator_parameter_validation (width height : ℕ) (eX eY : ℚ) (c : Cx)
    (maxIter : ℕ) :
    ((width = 0 ∨ height = 0 ∨ maxIter = 0 ∨ eX ≤ 0 ∨ eY ≤ 0) →
      genFieldChecked width height eX eY c maxIter = .error .invalidParameter) ∧
    (0 < width → 0 < height → 0 < maxIter → 0 < eX → 0 < eY →
      genFieldChecked width height eX eY c maxIter
        = .ok (genField width height eX eY c maxIter)) := by
  constructor
  · intro h
    rw [genFieldChecked, if_pos h]
  · intro h1 h2 h3 h4 h5
    rw [genFieldChecked, if_neg]
    push_neg
    exact ⟨by omega, by omega, by omega, h4, h5⟩

/-- Witness for C2: `width = 0` is rejected, and the all-positive call
`(2, 2, 1, 1, c = 0, 3)` succeeds. -/
theorem generator_parameter_validation_witness :
    genFieldChecked 0 2 1 1 ⟨0, 0⟩ 3 = .error .invalidParameter ∧
    genFieldChecked 2 2 1 1 ⟨0, 0⟩ 3 = .ok (genField 2 2 1 1 ⟨0, 0⟩ 3) :=
  ⟨(generator_parameter_validation 0 2 1 1 ⟨0, 0⟩ 3).1 (Or.inl rfl),
    (generator_parameter_validation 2 2 1 1 ⟨0, 0⟩ 3).2 (by norm_num) (by norm_num)
      (by norm_num) (by norm_num) (by norm_num)⟩

/-! ### The two known special points -/

theorem orbit_zero_zero : ∀ t, orbit ⟨0, 0⟩ ⟨0, 0⟩ t = (⟨0, 0⟩ : Cx) := by
  intro t
  induction t with
  | zero => rfl
  | succ t ih =>
    rw [orbit, ih]
    ext <;> norm_num [Cx.mul_re, Cx.mul_im, Cx.add_re, Cx.add_im]

theorem scanAfter_zero (fuel : ℕ) : ∀ i, scanAfter ⟨0, 0⟩ ⟨0, 0⟩ i fuel = i + fuel - 1 := by
  induction fuel with
  | zero => intro i; rfl
  | succ fuel ih =>
    intro i
    have hz : (⟨0, 0⟩ : Cx) * ⟨0, 0⟩ + ⟨0, 0⟩ = (⟨0, 0⟩ : Cx) := by
      ext <;> norm_num [Cx.mul_re, Cx.mul_im, Cx.add_re, Cx.add_im]
    simp only [scanAfter]
    rw [hz, if_neg (by norm_num [Cx.normSq]), ih (i + 1)]
    omega

/-- C7: for `c = 0` and any budget `maxIter ≥ 1`, a grid point exactly
at the origin has an orbit that stays at magnitude `0` forever (never
escapes) and its recorded field value is `maxIter - 1`. -/
theorem origin_fixed_point (maxIter : ℕ) (h : 1 ≤ maxIter) :
    (∀ t, (orbit ⟨0, 0⟩ ⟨0, 0⟩ t).normSq = 0) ∧
    escapeValue ⟨0, 0⟩ ⟨0, 0⟩ maxIter = maxIter - 1 := by
  constructor
  · intro t
    rw [orbit_zero_zero t]
    norm_num [Cx.normSq]
  · rw [escapeValue_eq_scanAfter, scanAfter_zero maxIter 0]
    omega

/-- Witness for C7: budget `3` records `2` at the origin, and the fifth
orbit iterate still has magnitude `0`. -/
theorem origin_fixed_point_witness :
    (1 : ℕ) ≤ 3 ∧ (orbit ⟨0, 0⟩ ⟨0, 0⟩ 5).normSq = 0 ∧
    escapeValue ⟨0, 0⟩ ⟨0, 0⟩ 3 = 3 - 1 :=
  ⟨by norm_num, (origin_fixed_point 3 (by norm_num)).1 5,
    (origin_fixed_point 3 (by norm_num)).2⟩

theorem escapeValue_outside_radius (z0 : Cx) (maxIter : ℕ) (h4 : 4 < z0.normSq)
    (hm : 1 ≤ maxIter) : escapeValue z0 ⟨0, 0⟩ maxIter = 0 := by
  rw [escapeValue_eq_scanAfter]
  obtain ⟨fuel, rfl⟩ : ∃ fuel, maxIter = fuel + 1 := ⟨maxIter - 1, by omega⟩
  simp only [scanAfter]
  rw [Cx.add_zero_cx, if_pos]
  · rw [Cx.normSq_mul]
    nlinarith [h4]

/-- C8: for `c = 0` and any budget `maxIter ≥ 1`, every grid point
whose initial iterate has magnitude above `2` records the value `0`
(it escapes at the very first check). -/
theorem outside_radius_escapes_first_check (width height : ℕ) (eX eY : ℚ)
    (maxIter i j : ℕ) (hm : 1 ≤ maxIter) (hi : i < height) (hj : j < width)
    (h4 : 4 < Cx.normSq ⟨(linspace (-eX) eX width).getD j 0,
      (linspace (-eY) eY height).getD i 0⟩) :
    fieldAt (genField width height eX eY ⟨0, 0⟩ maxIter) i j = 0 := by
  rw [fieldAt_genField width height eX eY ⟨0, 0⟩ maxIter hi hj]
  exact escapeValue_outside_radius _ maxIter h4 hm

/-- Witness for C8 on the `2 × 2` grid with extents `3`: the corner
point `(-3, -3)` has squared magnitude `18 > 4` and records `0`. -/
theorem outside_radius_escapes_first_check_witness :
    ((1 : ℕ) ≤ 2 ∧ (0 : ℕ) < 2 ∧
      4 < Cx.normSq ⟨(linspace (-3) 3 2).getD 0 0, (linspace (-3) 3 2).getD 0 0⟩) ∧
    fieldAt (genField 2 2 3 3 ⟨0, 0⟩ 2) 0 0 = 0 :=
  ⟨⟨by norm_num, by norm_num,
      by norm_num [linspace, List.range_succ, Cx.normSq, List.getD_cons_zero]⟩,
    outside_radius_escapes_first_check 2 2 3 3 2 0 0 (by norm_num) (by norm_num)
      (by norm_num)
      (by norm_num [linspace, List.range_succ, Cx.normSq, List.getD_cons_zero])⟩

/-- C9: every generative-AI wrapper, on a failing remote call, catches
the exception at the call site, emits exactly one user-visible error
box and returns its sentinel (`none`, or the empty string for the
Whisper wrappers) instead of propagating; on a successful remote call
it returns the call's result. -/
theorem ai_wrappers_catch_failures (e url text outPath : String) :
    openai_create_image (.error e)
        = (none, [.errorBox ("Error generating image with DALL-E: " ++ e)]) ∧
    openai_create_image (.ok url) = (some url, []) ∧
    generate_prompt_with_chatgpt (.error e)
        = (none, [.errorBox ("Error generating improved prompt with ChatGPT: " ++ e)]) ∧
    generate_prompt_with_chatgpt (.ok text) = (some text.trim, []) ∧
    vision_analyze_image (.error e)
        = (none, [.errorBox ("An error occurred during image analysis: " ++ e)]) ∧
    vision_analyze_image (.ok text) = (some text, []) ∧
    openai_transcribe (.error e) = ("", [.errorBox ("Error during transcription: " ++ e)]) ∧
    openai_transcribe (.ok text) = (text, []) ∧
    openai_translate (.error e) = ("", [.errorBox ("Error during translation: " ++ e)]) ∧
    openai_translate (.ok text) = (text, []) ∧
    text_to_speech (.error e) outPath
        = (none, [.errorBox ("Error during text-to-speech conversion: " ++ e)]) ∧
    text_to_speech (.ok ()) outPath
        = (some outPath, [.successBox ("Text-to-speech audio saved to " ++ outPath)]) :=
  ⟨rfl, rfl, rfl, rfl, rfl, rfl, rfl, rfl, rfl, rfl, rfl, rfl⟩

/-- C10: at the valid call `(width, height, extents) = (2, 2, 1, 1)`
with `c = 10` and budget `5`, every grid point's first iterate already
has squared magnitude above `4`, the produced field is identically
zero, and the divisor `n_matrix.max()` of the unguarded display
normalization is therefore `0`. -/
theorem allzero_field_unguarded_divisor :
    genFieldChecked 2 2 1 1 ⟨10, 0⟩ 5 = .ok (genField 2 2 1 1 ⟨10, 0⟩ 5) ∧
    initZ (linspace (-1) 1 2) (linspace (-1) 1 2)
      = [[⟨-1, -1⟩, ⟨1, -1⟩], [⟨-1, 1⟩, ⟨1, 1⟩]] ∧
    (4 < (orbit ⟨-1, -1⟩ ⟨10, 0⟩ 1).normSq ∧ 4 < (orbit ⟨1, -1⟩ ⟨10, 0⟩ 1).normSq ∧
      4 < (orbit ⟨-1, 1⟩ ⟨10, 0⟩ 1).normSq ∧ 4 < (orbit ⟨1, 1⟩ ⟨10, 0⟩ 1).normSq) ∧
    genField 2 2 1 1 ⟨10, 0⟩ 5 = [[0, 0], [0, 0]] ∧
    fieldMax (genField 2 2 1 1 ⟨10, 0⟩ 5) = 0 := by
  have hfield : genField 2 2 1 1 ⟨10, 0⟩ 5 = [[0, 0], [0, 0]] := by
    norm_num [genField, genFieldOnGrid, linspace, List.range_succ, initZ, constMat,
      frameStep, zipWith2D, ptStep, Cx.normSq, Cx.mul_re, Cx.mul_im, Cx.add_re, Cx.add_im]
  refine ⟨?_, ?_, ⟨?_, ?_, ?_, ?_⟩, hfield, ?_⟩
  · rw [genFieldChecked, if_neg (by norm_num)]
  · norm_num [initZ, linspace, List.range_succ, Cx.mk.injEq]
  · norm_num [orbit, Cx.normSq, Cx.mul_re, Cx.mul_im, Cx.add_re, Cx.add_im]
  · norm_num [orbit, Cx.normSq, Cx.mul_re, Cx.mul_im, Cx.add_re, Cx.add_im]
  · norm_num [orbit, Cx.normSq, Cx.mul_re, Cx.mul_im, Cx.add_re, Cx.add_im]
  · norm_num [orbit, Cx.normSq, Cx.mul_re, Cx.mul_im, Cx.add_re, Cx.add_im]
  · rw [hfield]
    decide

end BlankApp
